import Mathlib

/-! Shallow embedding of the echo character device driver
(src/echodev/echodev.c, final revision): a capacity-bounded byte channel
with state fields buf / len / valid / writers / dying, blocking read and
write paths, resize and clear control operations, and a poll-style
readiness query.  The user-space copy primitive uiomove is treated as an
abstract transfer oracle that can fail and respects its byte budget. -/

namespace Echodev

/-- FreeBSD errno values used by the driver. -/
def EPERM : Nat := 1

def ENXIO : Nat := 6

def EFAULT : Nat := 14

def EBUSY : Nat := 16

def EINVAL : Nat := 22

def ENOTTY : Nat := 25

def EWOULDBLOCK : Nat := 35

def POLLIN : Nat := 1

def POLLOUT : Nat := 4

def POLLRDNORM : Nat := 64

/-- In FreeBSD poll.h, POLLWRNORM is the same bit as POLLOUT. -/
def POLLWRNORM : Nat := 4

def UINT_MAX : Nat := 2 ^ 32 - 1

def INT_MAX : Nat := 2 ^ 31 - 1

/-- The driver softc: storage array `buf` of allocated size `buf.length`,
logical capacity `len`, live byte count `valid`, writer-opener count
`writers`, teardown flag `dying`. -/
structure echodev_softc where
  buf : List Nat
  len : Nat
  valid : Nat
  writers : Nat
  dying : Bool
deriving DecidableEq, Repr

/-- echodev_create: zeroed storage of `len` bytes, everything else zero. -/
def echodev_create (len : Nat) : echodev_softc :=
  { buf := List.replicate len 0, len := len, valid := 0, writers := 0, dying := false }

/-- echo_open: with FWRITE, refuse at UINT_MAX writers with EBUSY, else
increment the writer count. -/
def echo_open (sc : echodev_softc) (fwrite : Bool) : Nat × echodev_softc :=
  if fwrite then
    if sc.writers = UINT_MAX then (EBUSY, sc)
    else (0, { sc with writers := sc.writers + 1 })
  else (0, sc)

/-- echo_close: with FWRITE, decrement the writer count. -/
def echo_close (sc : echodev_softc) (fwrite : Bool) : Nat × echodev_softc :=
  if fwrite then (0, { sc with writers := sc.writers - 1 })
  else (0, sc)

/-- Result of one echo_read call: success with the bytes copied out, an
error return, or a suspension on the read-wait condition (`sx_sleep`). -/
inductive ReadRes where
  | ok (bytes : List Nat) (sc : echodev_softc)
  | err (e : Nat) (sc : echodev_softc)
  | blocks (sc : echodev_softc)
deriving DecidableEq, Repr

/-- echo_read.  `resid` is uio_resid (the caller's byte budget), `o` is the
uiomove outcome oracle: `none` = the copy-out succeeds, `some e` = it fails
with errno `e`.  A zero-length uiomove always succeeds.  On success the
driver subtracts `todo` from valid and memmoves the remaining
`valid - todo` bytes to offset 0; on uiomove failure the state is
untouched (the update is guarded by `error == 0`). -/
def echo_read (sc : echodev_softc) (resid : Nat) (nonblock : Bool)
    (o : Option Nat) : ReadRes :=
  if resid = 0 then .ok [] sc
  else if sc.valid = 0 ∧ sc.writers ≠ 0 then
    if sc.dying then .err ENXIO sc
    else if nonblock then .err EWOULDBLOCK sc
    else .blocks sc
  else
    let todo := min resid sc.valid
    match (if todo = 0 then none else o) with
    | some e => .err e sc
    | none =>
        .ok (sc.buf.take todo)
          { sc with
            valid := sc.valid - todo,
            buf := (sc.buf.drop todo).take (sc.valid - todo)
                     ++ sc.buf.drop (sc.valid - todo) }

/-- Outcome of one uiomove call inside the write loop: success consumes the
whole chunk budget; failure with errno `e` consumes `consumed` bytes of the
budget (FreeBSD uiomove updates uio_resid for the part copied before the
fault; `consumed` is clamped to the budget). -/
inductive Chunk where
  | ok
  | fail (e : Nat) (consumed : Nat)
deriving DecidableEq, Repr

/-- Result of one echo_write call: the returned errno (0 = success) with
the number of input bytes consumed, a suspension on the write-wait
condition, or fuel/oracle exhaustion (the loop did not terminate within
the supplied budget). -/
inductive WriteRes where
  | done (e : Nat) (written : Nat) (sc : echodev_softc)
  | blocks (sc : echodev_softc)
  | fuelOut (sc : echodev_softc)
deriving DecidableEq, Repr

/-- The body of echo_write: `while (uio_resid != 0)` with an inner wait
loop while valid == len, then `todo = MIN(resid, len - valid)` and a
uiomove into buf at offset valid; only on uiomove success is valid
advanced.  The loop condition is re-checked after a failed uiomove — the
source has no break on error, so the `error` local is simply carried to
the next iteration, matching the C flow.  `fuel` bounds the iterations. -/
def writeLoop (fuel : Nat) (sc : echodev_softc) (input : List Nat)
    (nonblock : Bool) (os : List Chunk) (error : Nat) : WriteRes :=
  match fuel with
  | 0 => .fuelOut sc
  | fuel + 1 =>
    if input.isEmpty then .done error 0 sc
    else if sc.valid = sc.len then
      if sc.dying then .done ENXIO 0 sc
      else if nonblock then .done EWOULDBLOCK 0 sc
      else .blocks sc
    else
      let todo := min input.length (sc.len - sc.valid)
      match os with
      | [] => .fuelOut sc
      | c :: os2 =>
        match c with
        | .ok =>
          let sc2 := { sc with
            valid := sc.valid + todo,
            buf := sc.buf.take sc.valid ++ input.take todo
                     ++ sc.buf.drop (sc.valid + todo) }
          match writeLoop fuel sc2 (input.drop todo) nonblock os2 0 with
          | .done e w sc3 => .done e (todo + w) sc3
          | r => r
        | .fail e k =>
          let kk := min k todo
          let sc2 := { sc with
            buf := sc.buf.take sc.valid ++ input.take kk
                     ++ sc.buf.drop (sc.valid + kk) }
          match writeLoop fuel sc2 (input.drop kk) nonblock os2 e with
          | .done e2 w sc3 => .done e2 (kk + w) sc3
          | r => r

/-- echo_write: empty input returns 0 immediately, otherwise run the
write loop with the error local initially dead (set on first uiomove). -/
def echo_write (fuel : Nat) (sc : echodev_softc) (input : List Nat)
    (nonblock : Bool) (os : List Chunk) : WriteRes :=
  if input.isEmpty then .done 0 0 sc
  else writeLoop fuel sc input nonblock os 0

/-- The ioctl commands echo_ioctl dispatches on. -/
inductive IoctlCmd where
  | gbufsize
  | sbufsize (new_len : Nat)
  | clear
  | fionbio
  | fioasync (arg : Nat)
  | fionread
  | fionwrite
  | unknown
deriving DecidableEq, Repr

/-- echo_ioctl: returns (errno, data-out, new state).  SBUFSIZE: equal
capacity is a no-op; shrinking below valid fails EBUSY leaving the state
alone, otherwise just len is lowered; growth reallocates with the new
region zero-filled. -/
def echo_ioctl (sc : echodev_softc) (cmd : IoctlCmd) (fwrite : Bool) :
    Nat × Nat × echodev_softc :=
  match cmd with
  | .gbufsize => (0, sc.len, sc)
  | .sbufsize new_len =>
    if !fwrite then (EPERM, 0, sc)
    else if new_len = sc.len then (0, 0, sc)
    else if new_len < sc.len then
      if new_len < sc.valid then (EBUSY, 0, sc)
      else (0, 0, { sc with len := new_len })
    else
      (0, 0, { sc with
               buf := sc.buf.take new_len ++ List.replicate (new_len - sc.buf.length) 0,
               len := new_len })
  | .clear =>
    if !fwrite then (EPERM, 0, sc)
    else (0, 0, { sc with valid := 0 })
  | .fionbio => (0, 0, sc)
  | .fioasync arg => if arg ≠ 0 then (EINVAL, 0, sc) else (0, 0, sc)
  | .fionread => (0, min INT_MAX sc.valid, sc)
  | .fionwrite => (0, min INT_MAX (sc.len - sc.valid), sc)
  | .unknown => (ENOTTY, 0, sc)

/-- echo_poll: revents starts empty; read bits are granted when
valid != 0 or writers == 0, write bits when valid < len. -/
def echo_poll (sc : echodev_softc) (events : Nat) : Nat :=
  let revents := 0
  let revents := if sc.valid ≠ 0 ∨ sc.writers = 0
    then revents ||| (events &&& (POLLIN ||| POLLRDNORM)) else revents
  let revents := if sc.valid < sc.len
    then revents ||| (events &&& (POLLOUT ||| POLLWRNORM)) else revents
  revents

/-- Spec 4.6 predicate: Readable = valid > 0 OR writer_count == 0. -/
def readable (sc : echodev_softc) : Prop := 0 < sc.valid ∨ sc.writers = 0

/-- Spec 4.6 predicate: Writable = valid < len. -/
def writable (sc : echodev_softc) : Prop := sc.valid < sc.len

/-- The poll flags whose spec predicate is currently satisfied. -/
def satisfiedFlags (sc : echodev_softc) : Nat :=
  (if 0 < sc.valid ∨ sc.writers = 0 then POLLIN ||| POLLRDNORM else 0) |||
  (if sc.valid < sc.len then POLLOUT ||| POLLWRNORM else 0)

/-- The post-state of a read call. -/
def ReadRes.state : ReadRes → echodev_softc
  | .ok _ sc => sc
  | .err _ sc => sc
  | .blocks sc => sc

/-- The post-state of a write call. -/
def WriteRes.state : WriteRes → echodev_softc
  | .done _ _ sc => sc
  | .blocks sc => sc
  | .fuelOut sc => sc

/-- One operation on the channel, with all of its parameters (including
the transfer oracles, so every uiomove success/failure interleaving is a
step). -/
inductive Op where
  | rd (resid : Nat) (nonblock : Bool) (o : Option Nat)
  | wr (fuel : Nat) (input : List Nat) (nonblock : Bool) (os : List Chunk)
  | ioc (cmd : IoctlCmd) (fwrite : Bool)
  | openw (fwrite : Bool)
  | closew (fwrite : Bool)
  | destroy

/-- The state after running one operation. -/
def next (op : Op) (sc : echodev_softc) : echodev_softc :=
  match op with
  | .rd resid nb o => (echo_read sc resid nb o).state
  | .wr fuel input nb os => (echo_write fuel sc input nb os).state
  | .ioc cmd fw => (echo_ioctl sc cmd fw).2.2
  | .openw fw => (echo_open sc fw).2
  | .closew fw => (echo_close sc fw).2
  | .destroy => { sc with dying := true }

/-- States reachable from echodev_create by any sequence of operations. -/
inductive Reachable (cap : Nat) : echodev_softc → Prop where
  | init : Reachable cap (echodev_create cap)
  | step {sc : echodev_softc} (h : Reachable cap sc) (op : Op) :
      Reachable cap (next op sc)

/-- The structural invariant: valid never exceeds the logical capacity,
which never exceeds the allocated storage size. -/
def Inv (sc : echodev_softc) : Prop :=
  sc.valid ≤ sc.len ∧ sc.len ≤ sc.buf.length

/-- Adding the written count onto a recursive write result does not change
its post-state. -/
theorem addWritten_state (r : WriteRes) (t : Nat) :
    (match r with
     | .done e2 w sc3 => WriteRes.done e2 (t + w) sc3
     | r2 => r2).state = r.state := by
  cases r <;> rfl

theorem echo_read_state_inv (sc : echodev_softc) (resid : Nat) (nb : Bool)
    (o : Option Nat) (h : Inv sc) : Inv (echo_read sc resid nb o).state := by
  obtain ⟨h1, h2⟩ := h
  simp only [echo_read]
  split
  · exact ⟨h1, h2⟩
  · split
    · split
      · exact ⟨h1, h2⟩
      · split
        · exact ⟨h1, h2⟩
        · exact ⟨h1, h2⟩
    · split
      · exact ⟨h1, h2⟩
      · refine ⟨?_, ?_⟩ <;>
        · simp only [ReadRes.state, List.length_append, List.length_take,
            List.length_drop]
          omega

theorem writeLoop_state_inv (fuel : Nat) :
    ∀ (sc : echodev_softc) (input : List Nat) (nb : Bool) (os : List Chunk)
      (e0 : Nat), Inv sc → Inv (writeLoop fuel sc input nb os e0).state := by
  induction fuel with
  | zero =>
    intro sc input nb os e0 h
    simpa [writeLoop, WriteRes.state] using h
  | succ n ih =>
    intro sc input nb os e0 h
    obtain ⟨h1, h2⟩ := h
    rw [writeLoop]
    split
    · exact ⟨h1, h2⟩
    · split
      · split
        · exact ⟨h1, h2⟩
        · split
          · exact ⟨h1, h2⟩
          · exact ⟨h1, h2⟩
      · split
        · exact ⟨h1, h2⟩
        · split
          · rw [addWritten_state]
            refine ih _ _ _ _ _ ⟨?_, ?_⟩ <;>
            · simp only [List.length_append, List.length_take, List.length_drop]
              omega
          · rw [addWritten_state]
            refine ih _ _ _ _ _ ⟨?_, ?_⟩ <;>
            · simp only [List.length_append, List.length_take, List.length_drop]
              omega

theorem echo_ioctl_state_inv (sc : echodev_softc) (cmd : IoctlCmd) (fw : Bool)
    (h : Inv sc) : Inv (echo_ioctl sc cmd fw).2.2 := by
  obtain ⟨h1, h2⟩ := h
  cases cmd <;> simp only [echo_ioctl]
  · exact ⟨h1, h2⟩
  · split
    · exact ⟨h1, h2⟩
    · split
      · exact ⟨h1, h2⟩
      · split
        · split
          · exact ⟨h1, h2⟩
          · refine ⟨?_, ?_⟩ <;> (simp only []; omega)
        · refine ⟨?_, ?_⟩ <;>
          · simp only [List.length_append, List.length_take, List.length_replicate]
            omega
  · split
    · exact ⟨h1, h2⟩
    · exact ⟨Nat.zero_le _, h2⟩
  · exact ⟨h1, h2⟩
  · split
    · exact ⟨h1, h2⟩
    · exact ⟨h1, h2⟩
  · exact ⟨h1, h2⟩
  · exact ⟨h1, h2⟩
  · exact ⟨h1, h2⟩

theorem next_inv (op : Op) (sc : echodev_softc) (h : Inv sc) :
    Inv (next op sc) := by
  obtain ⟨h1, h2⟩ := h
  cases op with
  | rd resid nb o => exact echo_read_state_inv sc resid nb o ⟨h1, h2⟩
  | wr fuel input nb os =>
    simp only [next, echo_write]
    split
    · exact ⟨h1, h2⟩
    · exact writeLoop_state_inv fuel sc input nb os 0 ⟨h1, h2⟩
  | ioc cmd fw => exact echo_ioctl_state_inv sc cmd fw ⟨h1, h2⟩
  | openw fw =>
    simp only [next, echo_open]
    split
    · split
      · exact ⟨h1, h2⟩
      · exact ⟨h1, h2⟩
    · exact ⟨h1, h2⟩
  | closew fw =>
    simp only [next, echo_close]
    split
    · exact ⟨h1, h2⟩
    · exact ⟨h1, h2⟩
  | destroy => exact ⟨h1, h2⟩

theorem reachable_inv (cap : Nat) (sc : echodev_softc)
    (h : Reachable cap sc) : Inv sc := by
  induction h with
  | init =>
    refine ⟨Nat.zero_le cap, ?_⟩
    simp [echodev_create]
  | step h op ih => exact next_inv op _ ih

/-- A read that finds buffered data never consults the wait loop: it
returns min(resid, valid) bytes from the front of storage. -/
theorem read_avail_eq (sc : echodev_softc) (resid : Nat) (nb : Bool)
    (hv : 0 < sc.valid) (hr : 0 < resid) :
    echo_read sc resid nb none = .ok (sc.buf.take (min resid sc.valid))
      { sc with
        valid := sc.valid - min resid sc.valid,
        buf := (sc.buf.drop (min resid sc.valid)).take (sc.valid - min resid sc.valid)
                 ++ sc.buf.drop (sc.valid - min resid sc.valid) } := by
  simp only [echo_read]
  rw [if_neg (by omega), if_neg (by omega), if_neg (by omega)]

/-- A read that finds no data and no writers returns end-of-stream: zero
bytes, no error, state unchanged. -/
theorem read_eof_eq (sc : echodev_softc) (resid : Nat) (nb : Bool)
    (o : Option Nat) (hr : 0 < resid) (hv : sc.valid = 0)
    (hw : sc.writers = 0) : echo_read sc resid nb o = .ok [] sc := by
  obtain ⟨b, l, v, w, d⟩ := sc
  simp only at hv hw
  subst hv hw
  simp only [echo_read]
  rw [if_neg (by omega)]
  simp

/-- A single-chunk write that fits in the free space installs its bytes at
offset valid and returns success, regardless of the dying flag. -/
theorem write_fits_eq (sc : echodev_softc) (input : List Nat) (nb : Bool)
    (hne : input ≠ []) (hfit : input.length ≤ sc.len - sc.valid) :
    echo_write 2 sc input nb [Chunk.ok] = .done 0 input.length
      { sc with
        valid := sc.valid + input.length,
        buf := sc.buf.take sc.valid ++ input
                 ++ sc.buf.drop (sc.valid + input.length) } := by
  have hlen : 0 < input.length := List.length_pos.mpr hne
  have htodo : min input.length (sc.len - sc.valid) = input.length := by omega
  rw [echo_write, if_neg (by simpa [List.isEmpty_iff] using hne)]
  rw [writeLoop]
  rw [if_neg (by simpa [List.isEmpty_iff] using hne), if_neg (by omega)]
  simp only [htodo, List.take_length, List.drop_length]
  rw [writeLoop]
  simp

/-- Bitwise and distributes over bitwise or on the left operand. -/
theorem land_lor_left (m a b : Nat) : m &&& (a ||| b) = m &&& a ||| m &&& b := by
  apply Nat.eq_of_testBit_eq
  intro i
  simp only [Nat.testBit_land, Nat.testBit_lor]
  cases m.testBit i <;> cases a.testBit i <;> cases b.testBit i <;> rfl

/-- C1: for every reachable state of the channel (any operation sequence
from echodev_create), the buffered byte count satisfies
0 <= valid <= len. -/
theorem reachable_valid_le_len (cap : Nat) (sc : echodev_softc)
    (h : Reachable cap sc) : 0 ≤ sc.valid ∧ sc.valid ≤ sc.len :=
  ⟨Nat.zero_le _, (reachable_inv cap sc h).1⟩

/-- Witness for C1 at a concrete reachable state: create(4) followed by a
successful write of three bytes. -/
theorem reachable_valid_le_len_witness :
    0 ≤ (next (Op.wr 2 [1, 2, 3] false [Chunk.ok]) (echodev_create 4)).valid ∧
      (next (Op.wr 2 [1, 2, 3] false [Chunk.ok]) (echodev_create 4)).valid ≤
        (next (Op.wr 2 [1, 2, 3] false [Chunk.ok]) (echodev_create 4)).len :=
  reachable_valid_le_len 4 _ (Reachable.step Reachable.init (Op.wr 2 [1, 2, 3] false [Chunk.ok]))

/-- C2: round trip.  From a state with no buffered bytes and
len(S) <= capacity, a write of S (single chunk, transfer succeeds)
installs S at offset valid = 0 of storage and returns success with all
bytes consumed; a subsequent read of len(S) bytes takes S from the front
of storage and yields exactly S, in order. -/
theorem write_then_read_round_trip (sc : echodev_softc) (S : List Nat)
    (nb nb2 : Bool) (hv : sc.valid = 0) (hS : S.length ≤ sc.len) :
    ∃ sc1, echo_write 2 sc S nb [Chunk.ok] = .done 0 S.length sc1 ∧
      sc1.buf = S ++ sc.buf.drop S.length ∧ sc1.valid = S.length ∧
      ∃ sc2, echo_read sc1 S.length nb2 none = .ok S sc2 := by
  rcases S with _ | ⟨a, S0⟩
  · exact ⟨sc, by simp [echo_write], by simp, by simp [hv], sc, by simp [echo_read]⟩
  · have h1 : 0 < sc.len := lt_of_lt_of_le (by simp) hS
    have htodo : min (a :: S0).length (sc.len - sc.valid) = (a :: S0).length := by
      omega
    refine ⟨{ sc with
        valid := (a :: S0).length,
        buf := (a :: S0) ++ sc.buf.drop (a :: S0).length }, ?_, rfl, rfl, ?_⟩
    · simp only [echo_write, writeLoop, List.isEmpty_cons, Bool.false_eq_true,
        if_false, htodo]
      rw [if_neg (by omega)]
      simp [hv, List.take_length, List.drop_length]
    · refine ⟨{ sc with
        valid := 0,
        buf := (a :: S0) ++ sc.buf.drop (a :: S0).length }, ?_⟩
      simp only [echo_read]
      rw [if_neg (by simp), if_neg (by simp)]
      simp [List.take_left]

/-- C3: resizing below the live byte count fails with EBUSY (the
would-discard-live-data rejection) and changes nothing; resizing to
new_len with valid <= new_len < len succeeds and only lowers len,
leaving valid and the storage contents untouched. -/
theorem set_capacity_shrink_spec (sc : echodev_softc) (new_len : Nat)
    (hInv : sc.valid ≤ sc.len) (_hlive : 0 < sc.valid) :
    (new_len < sc.valid → echo_ioctl sc (.sbufsize new_len) true = (EBUSY, 0, sc)) ∧
    (sc.valid ≤ new_len → new_len < sc.len →
      echo_ioctl sc (.sbufsize new_len) true = (0, 0, { sc with len := new_len })) := by
  constructor
  · intro h
    have hne : new_len ≠ sc.len := by omega
    have hlt : new_len < sc.len := by omega
    simp [echo_ioctl, hne, hlt, h]
  · intro hge hlt
    have hne : new_len ≠ sc.len := by omega
    simp [echo_ioctl, hne, hlt, Nat.not_lt.2 hge]

/-- C5: a read of at least one byte on an empty channel with no open
writers returns zero bytes immediately with no error and an unchanged
state, whatever the nonblocking flag (end-of-stream, not a failure). -/
theorem read_end_of_stream (sc : echodev_softc) (resid : Nat) (nb : Bool)
    (o : Option Nat) (hr : 0 < resid) (hv : sc.valid = 0)
    (hw : sc.writers = 0) : echo_read sc resid nb o = .ok [] sc :=
  read_eof_eq sc resid nb o hr hv hw

/-- C6: a read of at least one byte finding valid == 0 with writers
still open fails with ENXIO when the device is dying (this check takes
priority over nonblocking), else with EWOULDBLOCK when nonblocking; in
both cases the state is returned unchanged. -/
theorem read_empty_with_writers (sc : echodev_softc) (resid : Nat)
    (nb : Bool) (o : Option Nat) (hr : 0 < resid) (hv : sc.valid = 0)
    (hw : sc.writers ≠ 0) :
    (sc.dying = true → echo_read sc resid nb o = .err ENXIO sc) ∧
    (sc.dying = false → nb = true → echo_read sc resid nb o = .err EWOULDBLOCK sc) := by
  constructor
  · intro hd
    simp only [echo_read]
    rw [if_neg (by omega), if_pos ⟨hv, hw⟩, if_pos hd]
  · intro hd hnb
    simp only [echo_read]
    rw [if_neg (by omega), if_pos ⟨hv, hw⟩, if_neg (by simp [hd]), if_pos hnb]
theorem writeLoop_done_zero_written (fuel : Nat) :
    ∀ (sc : echodev_softc) (input : List Nat) (nb : Bool) (os : List Chunk)
      (e0 w : Nat) (sc2 : echodev_softc),
      writeLoop fuel sc input nb os e0 = .done 0 w sc2 → w = input.length := by
  induction fuel with
  | zero =>
    intro sc input nb os e0 w sc2 h
    simp [writeLoop] at h
  | succ n ih =>
    intro sc input nb os e0 w sc2 h
    rw [writeLoop] at h
    split at h
    · rename_i hemp
      rw [List.isEmpty_iff] at hemp
      subst hemp
      rw [WriteRes.done.injEq] at h
      obtain ⟨-, hw, -⟩ := h
      simp [← hw]
    · split at h
      · split at h
        · simp [ ENXIO] at h
        · split at h
          · simp [EWOULDBLOCK] at h
          · simp at h
      · split at h
        · simp at h
        · split at h
          · dsimp only [] at h
            split at h
            · rename_i e2 w2 sc3 hrec
              rw [WriteRes.done.injEq] at h
              obtain ⟨he, hw, -⟩ := h
              subst he
              have := ih _ _ _ _ _ _ _ hrec
              simp only [List.length_drop] at this
              omega
            · rename_i r hno
              simp only [List.append_assoc] at hno h
              exact absurd h (hno 0 w sc2)
          · dsimp only [] at h
            split at h
            · rename_i e2 w2 sc3 hrec
              rw [WriteRes.done.injEq] at h
              obtain ⟨he, hw, -⟩ := h
              subst he
              have := ih _ _ _ _ _ _ _ hrec
              simp only [List.length_drop] at this
              omega
            · rename_i r hno
              simp only [List.append_assoc] at hno h
              exact absurd h (hno 0 w sc2)
/-- Witness for C2: create(4), write [1,2,3], read 3 back. -/
theorem write_then_read_round_trip_witness :
    ∃ sc1, echo_write 2 (echodev_create 4) [1, 2, 3] false [Chunk.ok] = .done 0 3 sc1 ∧
      sc1.buf = [1, 2, 3] ++ (echodev_create 4).buf.drop 3 ∧ sc1.valid = 3 ∧
      ∃ sc2, echo_read sc1 3 false none = .ok [1, 2, 3] sc2 :=
  write_then_read_round_trip (echodev_create 4) [1, 2, 3] false false rfl (by decide)

/-- Witness for C3: valid = 10, set_capacity(5) fails EBUSY unchanged;
valid = 2, len = 4, set_capacity(3) succeeds lowering only len. -/
theorem set_capacity_shrink_spec_witness :
    echo_ioctl (echodev_softc.mk (List.replicate 10 0) 10 10 0 false)
        (.sbufsize 5) true =
      (EBUSY, 0, echodev_softc.mk (List.replicate 10 0) 10 10 0 false) ∧
    echo_ioctl (echodev_softc.mk (List.replicate 4 0) 4 2 0 false)
        (.sbufsize 3) true =
      (0, 0, echodev_softc.mk (List.replicate 4 0) 3 2 0 false) :=
  ⟨(set_capacity_shrink_spec _ 5 (by decide) (by decide)).1 (by decide),
   (set_capacity_shrink_spec (echodev_softc.mk (List.replicate 4 0) 4 2 0 false)
      3 (by decide) (by decide)).2 (by decide) (by decide)⟩

/-- Witness for C5: empty channel, zero writers, read of 5 bytes comes
back empty at once. -/
theorem read_end_of_stream_witness :
    echo_read (echodev_softc.mk [9, 9] 2 0 0 true) 5 true none =
      .ok [] (echodev_softc.mk [9, 9] 2 0 0 true) :=
  read_end_of_stream _ 5 true none (by decide) (by decide) (by decide)

/-- Witness for C6: dying channel fails ENXIO even when nonblocking; live
nonblocking channel fails EWOULDBLOCK. -/
theorem read_empty_with_writers_witness :
    echo_read (echodev_softc.mk [0] 1 0 1 true) 4 true none =
      .err ENXIO (echodev_softc.mk [0] 1 0 1 true) ∧
    echo_read (echodev_softc.mk [0] 1 0 1 false) 4 true none =
      .err EWOULDBLOCK (echodev_softc.mk [0] 1 0 1 false) :=
  ⟨(read_empty_with_writers _ 4 true none (by decide) (by decide) (by decide)).1 rfl,
   (read_empty_with_writers (echodev_softc.mk [0] 1 0 1 false) 4 true none
      (by decide) (by decide) (by decide)).2 rfl rfl⟩

/-- C4: success-path asymmetry.  A write call that returns success has
consumed the whole input (no short successful writes); a read that finds
data available returns at once with min(max_len, valid) bytes (partial
reads are normal). -/
theorem write_all_read_min :
    (∀ (fuel : Nat) (sc : echodev_softc) (input : List Nat) (nb : Bool)
        (os : List Chunk) (w : Nat) (sc2 : echodev_softc), input ≠ [] →
        echo_write fuel sc input nb os = .done 0 w sc2 → w = input.length) ∧
    (∀ (sc : echodev_softc) (resid : Nat) (nb : Bool), 0 < sc.valid →
        0 < resid → sc.valid ≤ sc.buf.length →
        ∃ sc2, echo_read sc resid nb none =
            .ok (sc.buf.take (min resid sc.valid)) sc2 ∧
          (sc.buf.take (min resid sc.valid)).length = min resid sc.valid) := by
  constructor
  · intro fuel sc input nb os w sc2 hne h
    rw [echo_write, if_neg (by simpa [List.isEmpty_iff] using hne)] at h
    exact writeLoop_done_zero_written fuel sc input nb os 0 w sc2 h
  · intro sc resid nb hv hr hb
    refine ⟨_, read_avail_eq sc resid nb hv hr, ?_⟩
    simp only [List.length_take]
    omega

/-- Witness for C4: a successful write of two bytes reports both bytes
written; a read of 2 with 3 valid bytes returns exactly 2 bytes. -/
theorem write_all_read_min_witness :
    (2 : Nat) = ([5, 6] : List Nat).length ∧
    ∃ sc2, echo_read (echodev_softc.mk [1, 2, 3, 0] 4 3 1 false) 2 false none =
        .ok ((echodev_softc.mk [1, 2, 3, 0] 4 3 1 false).buf.take (min 2 3)) sc2 ∧
      ((echodev_softc.mk [1, 2, 3, 0] 4 3 1 false).buf.take (min 2 3)).length = min 2 3 :=
  ⟨write_all_read_min.1 2 (echodev_softc.mk [0, 0] 2 0 1 false)
      [5, 6] false [Chunk.ok] 2 (echodev_softc.mk [5, 6] 2 2 1 false)
      (by decide) (by decide),
   write_all_read_min.2 (echodev_softc.mk [1, 2, 3, 0] 4 3 1 false)
      2 false (by decide) (by decide) (by decide)⟩

/-- C7 (code bug): the write loop has no break on a uiomove failure.  With
input [7] into the empty two-byte channel, a first transfer failure
(EFAULT, nothing consumed) is silently retried; the successful retry makes
the call report overall success instead of returning the error to the
caller. -/
theorem write_swallows_transfer_error :
    echo_write 3 (echodev_create 2) [7] false [Chunk.fail EFAULT 0, Chunk.ok] =
      .done 0 1 (echodev_softc.mk [7, 0] 2 1 0 false) := by
  decide

/-- C8: the level-style readiness query returns exactly the requested
flags intersected with the satisfied predicates: read bits are reported
exactly when valid > 0 or writers == 0 (and requested), write bits
exactly when valid < len (and requested). -/
theorem poll_reports_readiness (sc : echodev_softc) (events : Nat) :
    echo_poll sc events = events &&& satisfiedFlags sc ∧
    (echo_poll sc events &&& (POLLIN ||| POLLRDNORM) ≠ 0 ↔
      readable sc ∧ events &&& (POLLIN ||| POLLRDNORM) ≠ 0) ∧
    (echo_poll sc events &&& (POLLOUT ||| POLLWRNORM) ≠ 0 ↔
      writable sc ∧ events &&& (POLLOUT ||| POLLWRNORM) ≠ 0) := by
  have hiff : (sc.valid ≠ 0 ∨ sc.writers = 0) ↔ (0 < sc.valid ∨ sc.writers = 0) := by
    omega
  by_cases hP : 0 < sc.valid ∨ sc.writers = 0 <;> by_cases hQ : sc.valid < sc.len
  · have hsat : satisfiedFlags sc = (POLLIN ||| POLLRDNORM) ||| (POLLOUT ||| POLLWRNORM) := by
      simp [satisfiedFlags, hP, hQ]
    have heq : echo_poll sc events = events &&& satisfiedFlags sc := by
      simp only [echo_poll, hiff]
      rw [if_pos hP, if_pos hQ, hsat]
      simp [land_lor_left, Nat.lor_assoc]
    refine ⟨heq, ?_, ?_⟩
    · rw [heq, hsat, Nat.land_assoc,
        (show ((POLLIN ||| POLLRDNORM) ||| (POLLOUT ||| POLLWRNORM)) &&& (POLLIN ||| POLLRDNORM)
            = POLLIN ||| POLLRDNORM by decide)]
      simp [readable, hP]
    · rw [heq, hsat, Nat.land_assoc,
        (show ((POLLIN ||| POLLRDNORM) ||| (POLLOUT ||| POLLWRNORM)) &&& (POLLOUT ||| POLLWRNORM)
            = POLLOUT ||| POLLWRNORM by decide)]
      simp [writable, hQ]
  · have hsat : satisfiedFlags sc = POLLIN ||| POLLRDNORM := by
      simp [satisfiedFlags, hP, hQ]
    have heq : echo_poll sc events = events &&& satisfiedFlags sc := by
      simp only [echo_poll, hiff]
      rw [if_pos hP, if_neg hQ, hsat]
      simp
    refine ⟨heq, ?_, ?_⟩
    · rw [heq, hsat, Nat.land_assoc,
        (show (POLLIN ||| POLLRDNORM) &&& (POLLIN ||| POLLRDNORM)
            = POLLIN ||| POLLRDNORM by decide)]
      simp [readable, hP]
    · rw [heq, hsat, Nat.land_assoc,
        (show (POLLIN ||| POLLRDNORM) &&& (POLLOUT ||| POLLWRNORM) = 0 by decide)]
      simp [writable, hQ]
  · have hsat : satisfiedFlags sc = POLLOUT ||| POLLWRNORM := by
      simp [satisfiedFlags, hP, hQ]
    have heq : echo_poll sc events = events &&& satisfiedFlags sc := by
      simp only [echo_poll, hiff]
      rw [if_neg hP, if_pos hQ, hsat]
      simp
    refine ⟨heq, ?_, ?_⟩
    · rw [heq, hsat, Nat.land_assoc,
        (show (POLLOUT ||| POLLWRNORM) &&& (POLLIN ||| POLLRDNORM) = 0 by decide)]
      simp [readable, hP]
    · rw [heq, hsat, Nat.land_assoc,
        (show (POLLOUT ||| POLLWRNORM) &&& (POLLOUT ||| POLLWRNORM)
            = POLLOUT ||| POLLWRNORM by decide)]
      simp [writable, hQ]
  · have hsat : satisfiedFlags sc = 0 := by
      simp [satisfiedFlags, hP, hQ]
    have heq : echo_poll sc events = events &&& satisfiedFlags sc := by
      simp only [echo_poll, hiff]
      rw [if_neg hP, if_neg hQ, hsat]
      simp
    refine ⟨heq, ?_, ?_⟩
    · rw [heq, hsat]
      simp [readable, hP]
    · rw [heq, hsat]
      simp [writable, hQ]

/-- C9: the dying flag affects only paths that would otherwise wait.
With dying set, a read finding data still returns it, a read finding no
writers still reports end-of-stream, and a write chunk finding free space
still installs its bytes; ENXIO is delivered only from inside the wait
loops — for read only when valid == 0 with writers open (and dying), for
write only from a wait state with valid == len (and dying), provided the
transfer oracle itself never fails with ENXIO. -/
theorem dying_only_affects_waiting :
    (∀ (sc : echodev_softc) (resid : Nat) (nb : Bool), sc.dying = true →
        0 < sc.valid → 0 < resid →
        ∃ sc2, echo_read sc resid nb none =
          .ok (sc.buf.take (min resid sc.valid)) sc2) ∧
    (∀ (sc : echodev_softc) (resid : Nat) (nb : Bool) (o : Option Nat),
        sc.dying = true → 0 < resid → sc.valid = 0 → sc.writers = 0 →
        echo_read sc resid nb o = .ok [] sc) ∧
    (∀ (sc : echodev_softc) (input : List Nat) (nb : Bool), sc.dying = true →
        input ≠ [] → input.length ≤ sc.len - sc.valid →
        echo_write 2 sc input nb [Chunk.ok] = .done 0 input.length
          { sc with
            valid := sc.valid + input.length,
            buf := sc.buf.take sc.valid ++ input
                     ++ sc.buf.drop (sc.valid + input.length) }) ∧
    (∀ (sc : echodev_softc) (resid : Nat) (nb : Bool) (o : Option Nat)
        (sc2 : echodev_softc), o ≠ some ENXIO →
        echo_read sc resid nb o = .err ENXIO sc2 →
        sc.valid = 0 ∧ sc.writers ≠ 0 ∧ sc.dying = true) ∧
    (∀ (fuel : Nat) (sc : echodev_softc) (input : List Nat) (nb : Bool)
        (os : List Chunk) (e0 w : Nat) (sc2 : echodev_softc),
        (∀ e k, Chunk.fail e k ∈ os → e ≠ ENXIO) → e0 ≠ ENXIO →
        writeLoop fuel sc input nb os e0 = .done ENXIO w sc2 →
        sc2.dying = true ∧ sc2.valid = sc2.len) := by
  refine ⟨?_, ?_, ?_, ?_, ?_⟩
  · intro sc resid nb _hd hv hr
    exact ⟨_, read_avail_eq sc resid nb hv hr⟩
  · intro sc resid nb o _hd hr hv hw
    exact read_eof_eq sc resid nb o hr hv hw
  · intro sc input nb _hd hne hfit
    exact write_fits_eq sc input nb hne hfit
  · intro sc resid nb o sc2 ho h
    simp only [echo_read] at h
    split at h
    · exact absurd h (by simp)
    · split at h
      · rename_i hcond
        split at h
        · rename_i hd
          exact ⟨hcond.1, hcond.2, hd⟩
        · split at h
          · simp [EWOULDBLOCK, ENXIO] at h
          · exact absurd h (by simp)
      · split at h
        · rename_i hsome
          rw [ReadRes.err.injEq] at h
          obtain ⟨he, -⟩ := h
          subst he
          split at hsome
          · exact absurd hsome (by simp)
          · exact absurd hsome ho
        · exact absurd h (by simp)
  · intro fuel
    induction fuel with
    | zero =>
      intro sc input nb os e0 w sc2 hos he0 h
      simp [writeLoop] at h
    | succ n ih =>
      intro sc input nb os e0 w sc2 hos he0 h
      rw [writeLoop] at h
      split at h
      · rw [WriteRes.done.injEq] at h
        obtain ⟨he, -, -⟩ := h
        exact absurd he he0
      · split at h
        · rename_i hfull
          split at h
          · rename_i hd
            rw [WriteRes.done.injEq] at h
            obtain ⟨-, -, hsc⟩ := h
            subst hsc
            exact ⟨hd, hfull⟩
          · split at h
            · simp [EWOULDBLOCK, ENXIO] at h
            · exact absurd h (by simp)
        · split at h
          · simp at h
          · split at h
            · dsimp only [] at h
              split at h
              · rename_i e2 w2 sc3 hrec
                rw [WriteRes.done.injEq] at h
                obtain ⟨he, -, hsc⟩ := h
                subst he
                subst hsc
                exact ih _ _ _ _ _ _ _
                  (fun e k hm => hos e k (List.mem_cons_of_mem _ hm))
                  (by simp [ ENXIO]) hrec
              · rename_i r hno
                simp only [List.append_assoc] at hno h
                exact absurd h (hno ENXIO w sc2)
            · rename_i e3 k3
              dsimp only [] at h
              split at h
              · rename_i e2 w2 sc3 hrec
                rw [WriteRes.done.injEq] at h
                obtain ⟨he, -, hsc⟩ := h
                subst he
                subst hsc
                exact ih _ _ _ _ _ _ _
                  (fun e k hm => hos e k (List.mem_cons_of_mem _ hm))
                  (hos e3 k3 (List.mem_cons_self _ _)) hrec
              · rename_i r hno
                simp only [List.append_assoc] at hno h
                exact absurd h (hno ENXIO w sc2)

/-- C10: shrinking to capacity 0 succeeds whenever valid == 0; in the
resulting state valid == len == 0, a non-empty nonblocking write fails
EWOULDBLOCK, the readiness query never grants write bits, a nonblocking
read with writers open fails EWOULDBLOCK, and every operation other than
a capacity change preserves valid == len == 0. -/
theorem zero_capacity_after_shrink :
    (∀ sc : echodev_softc, sc.valid = 0 →
        echo_ioctl sc (.sbufsize 0) true = (0, 0, { sc with len := 0 })) ∧
    (∀ (sc : echodev_softc) (fuel : Nat) (input : List Nat) (os : List Chunk),
        sc.valid = 0 → sc.len = 0 → sc.dying = false → input ≠ [] →
        echo_write (fuel + 1) sc input true os = .done EWOULDBLOCK 0 sc) ∧
    (∀ (sc : echodev_softc) (events : Nat), sc.valid = 0 → sc.len = 0 →
        echo_poll sc events &&& (POLLOUT ||| POLLWRNORM) = 0) ∧
    (∀ (sc : echodev_softc) (resid : Nat) (o : Option Nat), sc.valid = 0 →
        sc.len = 0 → sc.dying = false → sc.writers ≠ 0 → 0 < resid →
        echo_read sc resid true o = .err EWOULDBLOCK sc) ∧
    (∀ (sc : echodev_softc) (op : Op), sc.valid = 0 → sc.len = 0 →
        (∀ n fw, op ≠ .ioc (.sbufsize n) fw) →
        (next op sc).valid = 0 ∧ (next op sc).len = 0) := by
  refine ⟨?_, ?_, ?_, ?_, ?_⟩
  · intro sc hv
    by_cases hl : sc.len = 0
    · obtain ⟨b, l, v, w, d⟩ := sc
      simp only at hv hl
      subst hv hl
      simp [echo_ioctl]
    · have h2 : ¬(0 = sc.len) := by omega
      have h3 : 0 < sc.len := by omega
      simp [echo_ioctl, h2, h3, hv]
  · intro sc fuel input os hv hl hd hne
    rw [echo_write, if_neg (by simpa [List.isEmpty_iff] using hne)]
    rw [writeLoop, if_neg (by simpa [List.isEmpty_iff] using hne),
      if_pos (by omega : sc.valid = sc.len), if_neg (by simp [hd])]
    simp
  · intro sc events hv hl
    simp only [echo_poll]
    rw [if_neg (by omega : ¬sc.valid < sc.len)]
    split
    · rw [show (0 : Nat) ||| (events &&& (POLLIN ||| POLLRDNORM)) =
            events &&& (POLLIN ||| POLLRDNORM) by simp,
        Nat.land_assoc,
        show (POLLIN ||| POLLRDNORM) &&& (POLLOUT ||| POLLWRNORM) = 0 by decide]
      simp
    · simp
  · intro sc resid o hv hl hd hw hr
    simp only [echo_read]
    rw [if_neg (by omega), if_pos ⟨hv, hw⟩, if_neg (by simp [hd])]
    simp
  · intro sc op hv hl hop
    cases op with
    | rd resid nb o =>
      simp only [next, echo_read]
      split
      · exact ⟨hv, hl⟩
      · split
        · split
          · exact ⟨hv, hl⟩
          · split
            · exact ⟨hv, hl⟩
            · exact ⟨hv, hl⟩
        · split
          · exact ⟨hv, hl⟩
          · refine ⟨?_, ?_⟩ <;> simp [ReadRes.state, hv, hl]
    | wr fuel input nb os =>
      simp only [next, echo_write]
      split
      · exact ⟨hv, hl⟩
      · rename_i hne
        cases fuel with
        | zero => exact ⟨hv, hl⟩
        | succ n =>
          rw [writeLoop, if_neg hne, if_pos (by omega : sc.valid = sc.len)]
          split
          · exact ⟨hv, hl⟩
          · split
            · exact ⟨hv, hl⟩
            · exact ⟨hv, hl⟩
    | ioc cmd fw =>
      cases cmd with
      | gbufsize => exact ⟨hv, hl⟩
      | sbufsize n => exact absurd rfl (hop n fw)
      | clear =>
        simp only [next, echo_ioctl]
        split
        · exact ⟨hv, hl⟩
        · exact ⟨rfl, hl⟩
      | fionbio => exact ⟨hv, hl⟩
      | fioasync a =>
        simp only [next, echo_ioctl]
        split
        · exact ⟨hv, hl⟩
        · exact ⟨hv, hl⟩
      | fionread => exact ⟨hv, hl⟩
      | fionwrite => exact ⟨hv, hl⟩
      | unknown => exact ⟨hv, hl⟩
    | openw fw =>
      simp only [next, echo_open]
      split
      · split
        · exact ⟨hv, hl⟩
        · exact ⟨hv, hl⟩
      · exact ⟨hv, hl⟩
    | closew fw =>
      simp only [next, echo_close]
      split
      · exact ⟨hv, hl⟩
      · exact ⟨hv, hl⟩
    | destroy => exact ⟨hv, hl⟩

/-- Witness for C8: a half-full channel with one writer grants both read
and write bits from request 69 = POLLIN|POLLRDNORM|POLLOUT. -/
theorem poll_reports_readiness_witness :
    echo_poll (echodev_softc.mk [1, 0] 2 1 1 false) 69 =
      69 &&& satisfiedFlags (echodev_softc.mk [1, 0] 2 1 1 false) :=
  (poll_reports_readiness (echodev_softc.mk [1, 0] 2 1 1 false) 69).1

/-- Witness for C9: with dying set, a read with data available still
succeeds and a read with no writers still reports end-of-stream. -/
theorem dying_only_affects_waiting_witness :
    (∃ sc2, echo_read (echodev_softc.mk [5, 0] 2 1 1 true) 2 false none =
      .ok ((echodev_softc.mk [5, 0] 2 1 1 true).buf.take (min 2 1)) sc2) ∧
    echo_read (echodev_softc.mk [0] 1 0 0 true) 3 true none =
      .ok [] (echodev_softc.mk [0] 1 0 0 true) :=
  ⟨dying_only_affects_waiting.1 _ 2 false rfl (by decide) (by decide),
   dying_only_affects_waiting.2.1 _ 3 true none rfl (by decide) (by decide) (by decide)⟩

/-- Witness for C10: shrink a drained two-byte channel to zero capacity,
then watch a nonblocking write, the poll write bits and a nonblocking
read all refuse. -/
theorem zero_capacity_after_shrink_witness :
    echo_ioctl (echodev_softc.mk [0, 0] 2 0 1 false) (.sbufsize 0) true =
      (0, 0, echodev_softc.mk [0, 0] 0 0 1 false) ∧
    echo_write 1 (echodev_softc.mk [0, 0] 0 0 1 false) [7] true [] =
      .done EWOULDBLOCK 0 (echodev_softc.mk [0, 0] 0 0 1 false) ∧
    echo_poll (echodev_softc.mk [0, 0] 0 0 1 false) 69 &&& (POLLOUT ||| POLLWRNORM) = 0 ∧
    echo_read (echodev_softc.mk [0, 0] 0 0 1 false) 4 true none =
      .err EWOULDBLOCK (echodev_softc.mk [0, 0] 0 0 1 false) ∧
    ((next (Op.rd 3 true none) (echodev_softc.mk [0, 0] 0 0 1 false)).valid = 0 ∧
      (next (Op.rd 3 true none) (echodev_softc.mk [0, 0] 0 0 1 false)).len = 0) :=
  ⟨zero_capacity_after_shrink.1 _ (by decide),
   zero_capacity_after_shrink.2.1 _ 0 [7] [] (by decide) (by decide) (by decide) (by decide),
   zero_capacity_after_shrink.2.2.1 _ 69 (by decide) (by decide),
   zero_capacity_after_shrink.2.2.2.1 _ 4 none (by decide) (by decide) (by decide)
     (by decide) (by decide),
   zero_capacity_after_shrink.2.2.2.2 _ (Op.rd 3 true none) (by decide) (by decide)
     (by intro n fw; simp)⟩

end Echodev
